import Mathlib

/-!
Verification of the dynamics interface of a finite Markov Decision Process
(the `IEnvironment` trait of `src/main.rs`) and its toy implementation `Dull`.

Modelling choices:
* `f32` values are modelled as exact rationals `ℚ` (all arithmetic in the
  program on the tested values is exact).
* `Vec<f32>` becomes `List ℚ`; `HashSet<T>` becomes `Finset T` (the program
  only iterates over the set and sums, and sums over `ℚ` are order
  independent, so the unspecified iteration order of a `HashSet` is
  immaterial).
* The Rust trait with associated types `State`/`Action` and static methods
  becomes a structure parameterised by the two types, whose fields are the
  required methods; the default-implemented derived queries become functions
  taking the structure as an argument.
* `Option<f32>` becomes `Option ℚ`; the `None` branch is the Unsupported
  signal.
-/

/-- The environment contract: the primitive joint-dynamics query `prob`,
the space-enumeration queries `actions_from` / `states_from`, and the
optional reward enumeration `rewards` (from `trait IEnvironment`). -/
structure IEnvironment (State Action : Type) where
  prob : State → Action → State → ℚ → ℚ
  actions_from : State → Finset Action
  states_from : State → Action → Finset State
  rewards : List ℚ

namespace IEnvironment

variable {State Action : Type}

/-- The trait's default implementation of `rewards`: `vec![]`. -/
def rewards_default : List ℚ := []

/-- `fn prob_transition` (default trait method): marginal transition
probability, summing `prob` over the enumerated rewards; `None` when the
reward enumeration is empty. -/
def prob_transition (E : IEnvironment State Action) (frm : State)
    (take : Action) (dest : State) : Option ℚ :=
  let rewards := E.rewards
  if rewards.length > 0 then
    some ((rewards.map (fun s => E.prob frm take dest s)).sum)
  else
    none

/-- `fn expected_reward` (default trait method): sums `prob * r` over the
pairs produced by `flat_map` of the enumerated rewards with the successor
states `states_from`; `None` when the reward enumeration is empty.
The `flat_map`/`sum` over the `HashSet` (whose iteration order is
unspecified, and whose order cannot affect a sum of numbers) is rendered
as a `Finset.sum` inside the sum over the reward list. -/
def expected_reward (E : IEnvironment State Action) (frm : State)
    (take : Action) : Option ℚ :=
  let rewards := E.rewards
  if rewards.length > 0 then
    some ((rewards.map
      (fun r => ∑ t in E.states_from frm take, E.prob frm take t r * r)).sum)
  else
    none

/-- `fn expected_reward_at` (default trait method): sums `prob * r` over the
enumerated rewards for a fixed successor state; `None` when the reward
enumeration is empty. -/
def expected_reward_at (E : IEnvironment State Action) (frm : State)
    (take : Action) (dest : State) : Option ℚ :=
  let rewards := E.rewards
  if rewards.length > 0 then
    some ((rewards.map (fun r => E.prob frm take dest r * r)).sum)
  else
    none

end IEnvironment

/-- `enum DoNothing` of the example implementation. -/
inductive DoNothing : Type
  | Nothing : DoNothing
deriving DecidableEq, Fintype

/-- `enum Always` of the example implementation. -/
inductive Always : Type
  | Same : Always
deriving DecidableEq, Fintype

/-- `impl IEnvironment for Dull`: the single-state, single-action
environment with reward enumeration `[0.0]` and
`prob _ _ _ with = if with == 0.0 { 1.0 } else { 0.0 }`. -/
def Dull : IEnvironment Always DoNothing where
  prob := fun _ _ _ w => if w = 0 then 1 else 0
  actions_from := fun _ => {DoNothing.Nothing}
  states_from := fun _ _ => {Always.Same}
  rewards := [0]

/-- An environment identical to `Dull` except that it leaves `rewards` to
the trait's default implementation (`vec![]`). -/
def DullDefaultRewards : IEnvironment Always DoNothing where
  prob := fun _ _ _ w => if w = 0 then 1 else 0
  actions_from := fun _ => {DoNothing.Nothing}
  states_from := fun _ _ => {Always.Same}
  rewards := IEnvironment.rewards_default

/-- Exchanging a sum over a list with a sum over a `Finset`. -/
lemma map_sum_sum_comm {α β : Type} (l : List α) (s : Finset β) (f : α → β → ℚ) :
    (l.map fun a => ∑ b in s, f a b).sum = ∑ b in s, (l.map fun a => f a b).sum := by
  induction l with
  | nil => simp
  | cons x xs ih => simp [ih, Finset.sum_add_distrib]

/-- A list of nonnegative rationals summing to zero is all zeros. -/
lemma list_sum_nonneg_eq_zero {l : List ℚ} (hnn : ∀ x ∈ l, 0 ≤ x)
    (hs : l.sum = 0) : ∀ x ∈ l, x = 0 := by
  induction l with
  | nil => simp
  | cons x xs ih =>
    have hx : 0 ≤ x := hnn x (by simp)
    have hxs : 0 ≤ xs.sum := List.sum_nonneg fun z hz => hnn z (by simp [hz])
    rw [List.sum_cons] at hs
    have hx0 : x = 0 := by linarith
    have hs0 : xs.sum = 0 := by linarith
    intro y hy
    rcases List.mem_cons.mp hy with h | h
    · exact h ▸ hx0
    · exact ih (fun z hz => hnn z (by simp [hz])) hs0 y h

/-- C1: For every environment and every `(frm, take, dest)`,
`prob_transition` is `Some` of the sum over every `r` in `rewards()` of
`prob(frm, take, dest, r)` when `rewards()` is non-empty, and `None`
(Unsupported) when `rewards()` is empty. -/
theorem prob_transition_marginalizes {State Action : Type}
    (E : IEnvironment State Action) (frm : State) (take : Action)
    (dest : State) :
    E.prob_transition frm take dest =
      if E.rewards.length > 0 then
        some ((E.rewards.map fun r => E.prob frm take dest r).sum)
      else none := rfl

/-- C2: For every environment and every `(frm, take)`, `expected_reward` is
`Some` of the sum over every pair `(r, s2)` with `r` in `rewards()` and `s2`
in `states_from(frm, take)` of `prob(frm, take, s2, r) * r` (stated here
with the successor-state summation outermost, which also shows the
successor sum is bounded exactly by `states_from`), and `None` (Unsupported)
when `rewards()` is empty. -/
theorem expected_reward_pair_sum {State Action : Type}
    (E : IEnvironment State Action) (frm : State) (take : Action) :
    E.expected_reward frm take =
      if E.rewards.length > 0 then
        some (∑ t in E.states_from frm take,
          (E.rewards.map fun r => E.prob frm take t r * r).sum)
      else none := by
  unfold IEnvironment.expected_reward
  by_cases h : E.rewards.length > 0
  · rw [if_pos h, if_pos h]
    exact congrArg some (map_sum_sum_comm _ _ _)
  · rw [if_neg h, if_neg h]

/-- C3: For every environment and every `(frm, take, dest)`,
`expected_reward_at` is `Some` of the sum over every `r` in `rewards()` of
`prob(frm, take, dest, r) * r` when `rewards()` is non-empty, and `None`
(Unsupported) when `rewards()` is empty. -/
theorem expected_reward_at_conditional {State Action : Type}
    (E : IEnvironment State Action) (frm : State) (take : Action)
    (dest : State) :
    E.expected_reward_at frm take dest =
      if E.rewards.length > 0 then
        some ((E.rewards.map fun r => E.prob frm take dest r * r).sum)
      else none := rfl

/-- C4: Whenever `rewards()` is the empty sequence (the trait's default
implementation), all three derived queries return the Unsupported signal
(`none`) for every input. -/
theorem derived_queries_unsupported_on_default {State Action : Type}
    (E : IEnvironment State Action) (frm : State) (take : Action)
    (dest : State) (h : E.rewards = IEnvironment.rewards_default) :
    E.prob_transition frm take dest = none ∧
    E.expected_reward frm take = none ∧
    E.expected_reward_at frm take dest = none := by
  refine ⟨?_, ?_, ?_⟩ <;>
    simp [IEnvironment.prob_transition, IEnvironment.expected_reward,
      IEnvironment.expected_reward_at, h, IEnvironment.rewards_default]

theorem derived_queries_unsupported_on_default_witness :
    DullDefaultRewards.rewards = IEnvironment.rewards_default ∧
    (DullDefaultRewards.prob_transition Always.Same DoNothing.Nothing
        Always.Same = none ∧
      DullDefaultRewards.expected_reward Always.Same DoNothing.Nothing
        = none ∧
      DullDefaultRewards.expected_reward_at Always.Same DoNothing.Nothing
        Always.Same = none) :=
  ⟨rfl, derived_queries_unsupported_on_default DullDefaultRewards
    Always.Same DoNothing.Nothing Always.Same rfl⟩

/-- C5: Law of total expectation for every contract-conforming environment
(one whose `prob` is nonnegative, as §4.1 requires) with non-empty
`rewards()`: `expected_reward(s, a)` equals the sum over `s2` in
`states_from(s, a)` of
`transition_probability × (expected_reward_at / transition_probability)`
when that transition probability is nonzero, and terms with zero transition
probability contribute zero. -/
theorem expected_reward_total_expectation {State Action : Type}
    (E : IEnvironment State Action) (s : State) (a : Action)
    (hne : E.rewards.length > 0)
    (hnn : ∀ t r, 0 ≤ E.prob s a t r) :
    E.expected_reward s a =
      some (∑ t in E.states_from s a,
        if (E.prob_transition s a t).getD 0 = 0 then 0
        else (E.prob_transition s a t).getD 0 *
          ((E.expected_reward_at s a t).getD 0 /
            (E.prob_transition s a t).getD 0)) := by
  have hpt : ∀ t, E.prob_transition s a t
      = some ((E.rewards.map fun r => E.prob s a t r).sum) := by
    intro t
    unfold IEnvironment.prob_transition
    rw [if_pos hne]
  have hea : ∀ t, E.expected_reward_at s a t
      = some ((E.rewards.map fun r => E.prob s a t r * r).sum) := by
    intro t
    unfold IEnvironment.expected_reward_at
    rw [if_pos hne]
  rw [expected_reward_pair_sum, if_pos hne]
  refine congrArg some (Finset.sum_congr rfl fun t _ => ?_)
  rw [hpt, hea]
  simp only [Option.getD_some]
  by_cases h : (E.rewards.map fun r => E.prob s a t r).sum = 0
  · rw [if_pos h]
    refine List.sum_eq_zero fun x hx => ?_
    obtain ⟨r, hr, rfl⟩ := List.mem_map.mp hx
    have hz : E.prob s a t r = 0 := by
      have := list_sum_nonneg_eq_zero (l := E.rewards.map fun r => E.prob s a t r)
        (fun y hy => by
          obtain ⟨r2, hr2, rfl⟩ := List.mem_map.mp hy
          exact hnn t r2) h
      exact this _ (List.mem_map.mpr ⟨r, hr, rfl⟩)
    rw [hz, zero_mul]
  · rw [if_neg h, mul_div_cancel₀ _ h]

theorem expected_reward_total_expectation_witness :
    (Dull.rewards.length > 0 ∧
      ∀ t r, 0 ≤ Dull.prob Always.Same DoNothing.Nothing t r) ∧
    Dull.expected_reward Always.Same DoNothing.Nothing =
      some (∑ t in Dull.states_from Always.Same DoNothing.Nothing,
        if (Dull.prob_transition Always.Same DoNothing.Nothing t).getD 0 = 0
        then 0
        else (Dull.prob_transition Always.Same DoNothing.Nothing t).getD 0 *
          ((Dull.expected_reward_at Always.Same DoNothing.Nothing t).getD 0 /
            (Dull.prob_transition Always.Same DoNothing.Nothing t).getD 0)) :=
  ⟨⟨by decide, fun t r => by dsimp [Dull]; split <;> norm_num⟩,
    expected_reward_total_expectation Dull Always.Same DoNothing.Nothing
      (by decide) (fun t r => by dsimp [Dull]; split <;> norm_num)⟩

/-- C6: Concrete scenario on `Dull`: `prob_transition(Z, A, Z) = Some 1`,
`expected_reward(Z, A) = Some 0`, `expected_reward_at(Z, A, Z) = Some 0`,
and `prob(Z, A, Z, 1.0) = 0`. -/
theorem dull_concrete_scenario :
    Dull.prob_transition Always.Same DoNothing.Nothing Always.Same = some 1 ∧
    Dull.expected_reward Always.Same DoNothing.Nothing = some 0 ∧
    Dull.expected_reward_at Always.Same DoNothing.Nothing Always.Same
      = some 0 ∧
    Dull.prob Always.Same DoNothing.Nothing Always.Same 1 = 0 := by
  refine ⟨?_, ?_, ?_, ?_⟩ <;>
    norm_num [Dull, IEnvironment.prob_transition, IEnvironment.expected_reward,
      IEnvironment.expected_reward_at]

/-- C7: Normalization for `Dull`: for every state `s` and every action `a`
legal from `s`, the probabilities `prob(s, a, t, r)` summed over all `t` in
`states_from(s, a)` and all `r` in `rewards()` add up to exactly 1. -/
theorem dull_normalization (s : Always) (a : DoNothing)
    (h : a ∈ Dull.actions_from s) :
    (Dull.rewards.map
      (fun r => ∑ t in Dull.states_from s a, Dull.prob s a t r)).sum = 1 := by
  cases s
  cases a
  norm_num [Dull]

theorem dull_normalization_witness :
    DoNothing.Nothing ∈ Dull.actions_from Always.Same ∧
    (Dull.rewards.map
      (fun r => ∑ t in Dull.states_from Always.Same DoNothing.Nothing,
        Dull.prob Always.Same DoNothing.Nothing t r)).sum = 1 :=
  ⟨by decide, dull_normalization Always.Same DoNothing.Nothing (by decide)⟩

/-- C8: Tight support for `Dull`: `states_from(s, a)` contains exactly the
successor states carrying nonzero probability mass under
`prob(s, a, _, _)`. -/
theorem dull_tight_support (s : Always) (a : DoNothing) (t : Always) :
    t ∈ Dull.states_from s a ↔ ∃ r : ℚ, Dull.prob s a t r ≠ 0 := by
  constructor
  · intro _
    exact ⟨0, by norm_num [Dull]⟩
  · intro _
    cases t
    simp [Dull]

/-- C9: `Dull.prob` is total, never negative and never exceeds 1. -/
theorem dull_prob_bounds (s : Always) (a : DoNothing) (t : Always) (r : ℚ) :
    0 ≤ Dull.prob s a t r ∧ Dull.prob s a t r ≤ 1 := by
  dsimp [Dull]
  split <;> norm_num

/-- C10: `Dull.prob` depends only on its reward argument: any two calls
with the same reward agree regardless of the state and action arguments,
and the value is 1 when the reward is 0 and 0 otherwise. -/
theorem dull_prob_reward_only (s1 s2 t1 t2 : Always) (a1 a2 : DoNothing)
    (r : ℚ) :
    Dull.prob s1 a1 t1 r = Dull.prob s2 a2 t2 r ∧
    Dull.prob s1 a1 t1 r = (if r = 0 then 1 else 0) :=
  ⟨rfl, rfl⟩
